import Mathlib

/-!
Verification of `xy_table.py` (XY-table session protocol engine and DXF → GCode
path compiler) against its natural-language specification.

Shallow embedding conventions:
* Python strings are embedded as `List Char` (`Str`); Python's `s[n:]` is `List.drop n`,
  `a in b` is substring containment (`strIn`), `s.lower()` maps `Char.toLower`.
* DXF coordinates (Python floats compared with exact `==`/`!=` in the source) are
  embedded as `ℚ`; `round(x, 2)` is `round2` (round half to even at two decimals).
* Each emitted `'G1 X.. Y..[ F..]'` text line of the motion program is embedded as one
  `Move` value; the `kind` field records which of the two emitting statements produced
  the line (the conditional bridge append or the unconditional draw append).
* File-system and socket effects are embedded as explicit data: an oracle
  `canOpen : Str → Bool` for `open(..)` succeeding, returned write actions, appended
  error-log entries, and per-record receipt timestamps supplied as inputs.
-/

namespace XYTable

/-- Python string embedded as a list of characters. -/
abbrev Str := List Char

/-- String literal coercion into the embedding. -/
def cs (s : String) : Str := s.toList

/-- Python `s.lower()` (ASCII case folding, as exercised by the source). -/
def toLowerL (s : Str) : Str := s.map Char.toLower

/-- Python `s[n:]`. -/
def dropL (n : Nat) (s : Str) : Str := s.drop n

/-- Python `needle in hay` (substring containment). -/
def isSub (needle : Str) : Str → Bool
  | [] => needle.isPrefixOf []
  | c :: t => needle.isPrefixOf (c :: t) || isSub needle t

/-- Python `needle in hay`, by its spelling in the source. -/
def strIn (needle hay : Str) : Bool := isSub needle hay

/-- Python `hay.endswith(needle)`; used only to state claims about suffixes. -/
def endsWith (needle hay : Str) : Bool := needle.reverse.isPrefixOf hay.reverse

/-- Python `hay.replace(pat, '')`: delete every occurrence of `pat`. -/
def removeAll (pat : Str) (hay : Str) : Str :=
  match hay with
  | [] => []
  | c :: t =>
    if pat.isPrefixOf (c :: t) then removeAll pat (t.drop (pat.length - 1))
    else c :: removeAll pat t
termination_by hay.length
decreasing_by
  · simp only [List.length_cons, List.length_drop]; omega
  · simp only [List.length_cons]; omega

/-- One `AcDbLine` entity of the drawing file: group codes `10`/`20` give the start
point, `11`/`21` the end point (exact numeric values, embedded as `ℚ`). -/
structure Seg where
  xs : ℚ
  ys : ℚ
  xe : ℚ
  ye : ℚ
deriving DecidableEq

/-- The all-zero index-0 sentinel entry of the preallocated arrays
`xstart`/`ystart`/`xend`/`yend` (`[0 for i in range(qty)]`); `linecount` starts at 1,
so the first parsed segment is compared against this sentinel. -/
def seg0 : Seg := ⟨0, 0, 0, 0⟩

/-- The hardcoded array size of `dxf_to_gcode` (`qty = 1000`). With index 0 reserved
for the sentinel, at most `qty - 1 = 999` segments are ever stored. -/
def qty : Nat := 1000

/-- The running bounding extents `xmin`/`xmax`/`ymin`/`ymax`, all initialised to 0. -/
structure BBox where
  xmin : ℚ
  xmax : ℚ
  ymin : ℚ
  ymax : ℚ
deriving DecidableEq

/-- Initial bounding box accumulator (`xmax = xmin = ymax = ymin = 0`). -/
def bbox0 : BBox := ⟨0, 0, 0, 0⟩

/-- The eight comparisons performed at the `0` (end-of-entity) tag, in source order:
`ystart`/`yend` against `ymax`/`ymin`, then `xstart`/`xend` against `xmax`/`xmin`,
each with a strict comparison. -/
def bboxUpdate (b : BBox) (s : Seg) : BBox :=
  let ymax1 := if s.ys > b.ymax then s.ys else b.ymax
  let ymin1 := if s.ys < b.ymin then s.ys else b.ymin
  let ymax2 := if s.ye > ymax1 then s.ye else ymax1
  let ymin2 := if s.ye < ymin1 then s.ye else ymin1
  let xmax1 := if s.xs > b.xmax then s.xs else b.xmax
  let xmin1 := if s.xs < b.xmin then s.xs else b.xmin
  let xmax2 := if s.xe > xmax1 then s.xe else xmax1
  let xmin2 := if s.xe < xmin1 then s.xe else xmin1
  ⟨xmin2, xmax2, ymin2, ymax2⟩

/-- Result of the DXF read loop: the parsed segments (array entries `1..linecount-1`,
in file order), the bounding box, and whether the capacity error
(`linecount >= qty`) was recorded. -/
structure ParseOut where
  segs : List Seg
  box : BBox
  err : Bool
deriving DecidableEq

/-- The DXF read loop of `dxf_to_gcode`: for each completed entity store it at index
`linecount` (here: append to `segs`, so `linecount = segs.length + 1`), update the
bounding box, and stop with the capacity error once `linecount >= qty`.  The entity
list holds the valid `AcDbLine` entities of the file before its `EOF` marker. -/
def dxfRead (q : Nat) : List Seg → List Seg → BBox → ParseOut
  | [], segs, b => ⟨segs, b, false⟩
  | e :: rest, segs, b =>
    let segs' := segs ++ [e]
    let b' := bboxUpdate b e
    if q ≤ segs'.length + 1 then ⟨segs', b', true⟩
    else dxfRead q rest segs' b'

/-- The read phase of `dxf_to_gcode` on a drawing file, with the source's `qty`. -/
def dxfParse (entities : List Seg) : ParseOut := dxfRead qty entities [] bbox0

/-- Round half to even at the integer, as Python's `round` does on exact values. -/
def roundHalfEven (q : ℚ) : ℤ :=
  let f : ℤ := ⌊q⌋
  let d : ℚ := q - f
  if d < 1 / 2 then f
  else if 1 / 2 < d then f + 1
  else if f % 2 = 0 then f else f + 1

/-- Python `round(x, 2)` (`r = 2` in the source). -/
def round2 (q : ℚ) : ℚ := (roundHalfEven (q * 100) : ℚ) / 100

/-- Which of the two emitting statements of the GCode generator produced a line:
the conditional bridging append or the unconditional draw append. -/
inductive MoveKind
  | bridge
  | draw
deriving DecidableEq

/-- One emitted `'G1 X<round2> Y<round2>[ F<feedrate>]'` line of the motion program. -/
structure Move where
  kind : MoveKind
  x : ℚ
  y : ℚ
  feed : Option Str
deriving DecidableEq

/-- A draw move on which the feed-rate annotation is not emitted. -/
def drawN (s : Seg) : Move := ⟨.draw, round2 s.xe, round2 s.ye, none⟩

/-- The GCode generator loop (`for i in range(1, linecount)`): `prev` is segment
`i - 1` (`seg0` for `i = 1`), `feedflag` the "feed rate already emitted" flag
(initially 0).  When segment `i`'s start differs from segment `i - 1`'s end a
bridging move is emitted and the flag reset; the draw move is always emitted and
carries `' F' + feedrate` exactly when the flag is 0, after which the flag is 1
(so the recursion always continues with the flag set). -/
def genMoves (feedrate : Str) : Seg → Bool → List Seg → List Move
  | _, _, [] => []
  | prev, feedflag, s :: rest =>
    if s.xs ≠ prev.xe ∨ s.ys ≠ prev.ye then
      ⟨.bridge, round2 s.xs, round2 s.ys, none⟩ ::
        ⟨.draw, round2 s.xe, round2 s.ye, some feedrate⟩ :: genMoves feedrate s true rest
    else
      ⟨.draw, round2 s.xe, round2 s.ye, if feedflag then none else some feedrate⟩ ::
        genMoves feedrate s true rest

/-- A compiled motion program: the move lines following the fixed
`'G90 G17 G21'` header line, plus the capacity-error flag. -/
structure Program where
  moves : List Move
  err : Bool
deriving DecidableEq

/-- `dxf_to_gcode` on a drawing file: parse the entities, then generate the move
lines that follow the fixed header. -/
def dxf_to_gcode (feedrate : Str) (entities : List Seg) : Program :=
  let p := dxfParse entities
  ⟨genMoves feedrate seg0 false p.segs, p.err⟩

/-- One line of `error_log.txt`: the `datetime.now()` timestamp prefix and the
logged error.  The Python exception text is abstracted by the path whose `open`
failed (the only data it depends on in the claims considered here). -/
structure ErrEntry where
  stamp : Str
  msg : Str
deriving DecidableEq

/-- The mutable session variables read and written by the command handling of the
main loop: `feedrate` (initially `'600'`), `repeat` (`0`, i.e. `none`, until a
`delta` directive stores a command string) and the telemetry `record` string. -/
structure Session where
  feedrate : Str
  repeatCmd : Option Str
  record : Str
deriving DecidableEq

/-- `__gcode__(gcode, feedrate, record)`: the hard-coded dispatch over `home`,
`absolute`, `pulse x`/`pulse y`, `scandxf` and `viewpath`, falling through to the
verbatim input.  `canOpen` is the oracle for `open(path)` succeeding; `now` the
`datetime.now()` timestamp used by `error_log`.  Returns the string handed back to
the caller together with the entries appended to the persistent error record.
On `scandxf` success the source also writes the compiled program (via
`dxf_to_gcode`) to the derived `.txt` path that it returns. -/
def gcodeDispatch (canOpen : Str → Bool) (now : Str) (gcode feedrate record : Str) :
    Str × List ErrEntry :=
  if toLowerL gcode = cs "home" then (cs "G90 G0 X0 Y0", [])
  else if toLowerL gcode = cs "absolute" then (cs "G90", [])
  else if strIn (cs "pulse x") (toLowerL gcode) then (cs "G91 G1 X50 F" ++ dropL 7 gcode, [])
  else if strIn (cs "pulse y") (toLowerL gcode) then (cs "G91 G1 Y50 F" ++ dropL 7 gcode, [])
  else if strIn (cs "scandxf") (toLowerL gcode) then
    if canOpen (dropL 8 gcode) then
      (removeAll (cs ".dxf") (dropL 8 gcode) ++ cs ".txt", [])
    else (cs "G0", [⟨now, dropL 8 gcode⟩])
  else if strIn (cs "viewpath") (toLowerL gcode) then
    let path0 := dropL 9 gcode
    let path := if strIn (cs ".txt") path0 then path0 else path0 ++ cs ".txt"
    if canOpen path then (gcode, []) else (cs "G0", [⟨now, path⟩])
  else (gcode, [])

/-- Result of the `delta`/`save`/`clear`/`feedrate` elif chain of the main loop:
the updated session, the (possibly reassigned) `gcode` variable that is then
passed to `__gcode__` and sent, and the file write performed by `save`. -/
structure LocalStep where
  st : Session
  gcode : Str
  write : Option (Str × Str)
deriving DecidableEq

/-- The elif chain of the main loop on one operator input. -/
def localStep (st : Session) (gcode : Str) : LocalStep :=
  if strIn (cs "delta") (toLowerL gcode) then
    ⟨{ st with repeatCmd := some (cs "G91 G0 " ++ dropL 6 gcode) }, gcode, none⟩
  else if gcode = [] ∧ st.repeatCmd.isSome then
    ⟨st, st.repeatCmd.getD [], none⟩
  else if strIn (cs "save") (toLowerL gcode) then
    let p0 := dropL 5 gcode
    let p := if strIn (cs ".txt") p0 then p0 else p0 ++ cs ".txt"
    ⟨st, p, some (p, st.record)⟩
  else if gcode = cs "clear" then
    ⟨{ st with record := [] }, gcode, none⟩
  else if strIn (cs "feedrate") (toLowerL gcode) then
    ⟨{ st with feedrate := dropL 9 st.feedrate }, gcode, none⟩
  else ⟨st, gcode, none⟩

/-- Observable outcome of the command-handling part of one main-loop cycle:
final session variables, the string passed to `conn.send` (without the trailing
newline), the `save` file write if any, and the error record after the cycle. -/
structure CycleOut where
  st : Session
  sent : Str
  write : Option (Str × Str)
  errlog : List ErrEntry
deriving DecidableEq

/-- One main-loop cycle from operator input to `conn.send`: the elif chain, then
unconditionally `conn.send(__gcode__(gcode, feedrate, record) + '\n')`. -/
def commandCycle (canOpen : Str → Bool) (now : Str) (errlog : List ErrEntry)
    (st : Session) (gcode : Str) : CycleOut :=
  let ls := localStep st gcode
  let d := gcodeDispatch canOpen now ls.gcode ls.st.feedrate ls.st.record
  ⟨ls.st, d.1, ls.write, errlog ++ d.2⟩

/-- One telemetry record received during the drain sub-loop: the decoded record
text and the locally observed receipt timestamp
(`str(datetime.timestamp(datetime.now()))`). -/
structure Obs where
  pos : Str
  now : Str
deriving DecidableEq

/-- The motion-stop test `' ' in pos` on a received record. -/
def hasStop (pos : Str) : Bool := pos.contains ' '

/-- Final state of a drain sub-loop run. -/
structure DrainOut where
  stopped : Bool
  check : Str
  log : List (Str × Str)
deriving DecidableEq

/-- The telemetry-drain sub-loop (`while not ' ' in pos`), run on the records it
receives: each record is appended to the log (as its position fields paired with
the previous `check` timestamp) when `check != now and check != ''`; `check` is then
updated, and the loop exits once the just-received record contains the stop marker.
`stopped = false` means the record list was exhausted without a marker (the real
loop would stay blocked in `conn.recv`). -/
def drainLoop (check : Str) (log : List (Str × Str)) : List Obs → DrainOut
  | [] => ⟨false, check, log⟩
  | o :: rest =>
    let log' := if check ≠ o.now ∧ check ≠ [] then log ++ [(o.pos, check)] else log
    if hasStop o.pos then ⟨true, o.now, log'⟩
    else drainLoop o.now log' rest

/-- The records actually observed by the drain sub-loop: the prefix of the incoming
records up to and including the first one carrying the stop marker. -/
def consumedObs : List Obs → List Obs
  | [] => []
  | o :: rest => o :: (if hasStop o.pos then [] else consumedObs rest)

/-- Modelled from the spec's words for C7: one `(position, receipt-time)` log entry
for exactly those observed records whose receipt timestamp differs from the previous
observation; an empty previous timestamp means no previous observation exists yet
(nothing to differ from), as at the start of a session. -/
def specDrainLog : Str → List Obs → List (Str × Str)
  | _, [] => []
  | prev, o :: rest =>
    (if prev ≠ o.now ∧ prev ≠ [] then [(o.pos, prev)] else []) ++ specDrainLog o.now rest

/-- The chaining hypothesis of C1 on `first :: rest`: each later segment's start
point equals its predecessor's end point. -/
def chainedFrom (p : Seg) : List Seg → Bool
  | [] => true
  | s :: rest => (decide (s.xs = p.xe) && decide (s.ys = p.ye)) && chainedFrom s rest

/-- The hypothesis of C2 as stated: no segment's start point equals the preceding
segment's end point (a condition only between consecutive pairs). -/
def consecBreaks : List Seg → Bool
  | [] => true
  | [_] => true
  | a :: b :: rest => (decide (b.xs ≠ a.xe) || decide (b.ys ≠ a.ye)) && consecBreaks (b :: rest)

/-- Every segment's start point differs from its predecessor's end point, the
predecessor of the first segment being `p` (the generator's bridge condition
holding at every step). -/
def breaksFrom (p : Seg) : List Seg → Bool
  | [] => true
  | s :: rest => (decide (s.xs ≠ p.xe) || decide (s.ys ≠ p.ye)) && breaksFrom s rest

/-- All x coordinates (starts, then ends) of a segment list. -/
def ptsX (l : List Seg) : List ℚ := l.map Seg.xs ++ l.map Seg.xe

/-- All y coordinates (starts, then ends) of a segment list. -/
def ptsY (l : List Seg) : List ℚ := l.map Seg.ys ++ l.map Seg.ye

/-- Modelled from the claim C3 (as amended): the minimum and maximum of each
coordinate over the union of all parsed start and end points together with the
initial accumulator value 0. -/
def specBox (l : List Seg) : BBox :=
  ⟨(ptsX l).foldl min 0, (ptsX l).foldl max 0, (ptsY l).foldl min 0, (ptsY l).foldl max 0⟩

/-- Modelled from the claim C3: the minimum over a list of values alone (no
initial 0), the value the claim asserts for the bounding box; 0 for an empty list. -/
def minList : List ℚ → ℚ
  | [] => 0
  | q :: qs => qs.foldl min q

/-- Dispatch conditions under which `__gcode__` returns its input verbatim:
the input matches none of the hard-coded patterns. -/
def passesThrough (g : Str) : Bool :=
  !(decide (toLowerL g = cs "home")) && !(decide (toLowerL g = cs "absolute")) &&
  !(strIn (cs "pulse x") (toLowerL g)) && !(strIn (cs "pulse y") (toLowerL g)) &&
  !(strIn (cs "scandxf") (toLowerL g)) && !(strIn (cs "viewpath") (toLowerL g))

/-- C1 counterexample: a two-segment chained file whose first segment starts at the
origin compiles to `N = 2` move lines, not `N + 1 = 3`: the first segment's start
coincides with the all-zero sentinel, so no leading bridge move is emitted. -/
theorem c1_cex :
    chainedFrom ⟨0, 0, 1, 0⟩ [⟨1, 0, 1, 1⟩] = true ∧
      (genMoves (cs "600") seg0 false [⟨0, 0, 1, 0⟩, ⟨1, 0, 1, 1⟩]).length ≠ 2 + 1 := by
  decide

/-- C2 counterexample: a one-segment file (the no-sharing condition between
consecutive segments holds vacuously) whose segment starts at the origin compiles
to `1 = 2N - 1` move lines, not `2N = 2`: the sentinel comparison suppresses the
leading bridge. -/
theorem c2_cex :
    consecBreaks [⟨0, 0, 5, 5⟩] = true ∧
      (genMoves (cs "600") seg0 false [⟨0, 0, 5, 5⟩]).length ≠ 2 * 1 ∧
      (genMoves (cs "600") seg0 false [⟨0, 0, 5, 5⟩]).length = 2 * 1 - 1 := by
  decide

/-- C4: evaluation of the code at the failing input.  With stored feed rate `'600'`
and operator input `'feedrate 300'`, the handler executes `feedrate = feedrate[9:]`
(slicing the stored feed rate instead of the input), so the stored feed rate becomes
the empty string rather than `'300'`; and the unchanged directive text is still
passed to `__gcode__` and sent to the peer instead of being a pure local effect. -/
theorem c4_code_bug_eval :
    (commandCycle (fun _ => true) (cs "T") [] ⟨cs "600", none, cs "LOG"⟩
        (cs "feedrate 300")).st.feedrate = [] ∧
      (commandCycle (fun _ => true) (cs "T") [] ⟨cs "600", none, cs "LOG"⟩
        (cs "feedrate 300")).sent = cs "feedrate 300" := by
  decide

/-- C5 counterexample: a `delta` directive is not a pure local effect — during the
same cycle the raw directive text falls through `__gcode__` unchanged and is sent
to the peer (a nonempty command string), contradicting "does not send anything to
the peer that cycle". -/
theorem c5_cex :
    (commandCycle (fun _ => true) (cs "T") [] ⟨cs "600", none, []⟩ (cs "delta X10")).sent =
        cs "delta X10" ∧
      (commandCycle (fun _ => true) (cs "T") [] ⟨cs "600", none, []⟩ (cs "delta X10")).sent ≠
        [] := by
  decide

/-- C8 counterexample: the source tests `'.txt' in gcode` (substring containment),
not a suffix test.  The argument `'a.txt.bak'` has no `'.txt'` suffix, yet the log
is written to `'a.txt.bak'` unchanged instead of to `'a.txt.bak.txt'`. -/
theorem c8_cex :
    endsWith (cs ".txt") (cs "a.txt.bak") = false ∧
      (localStep ⟨cs "600", none, cs "LOG"⟩ (cs "save a.txt.bak")).write =
        some (cs "a.txt.bak", cs "LOG") ∧
      cs "a.txt.bak" ≠ cs "a.txt.bak" ++ cs ".txt" := by
  decide

/-- Once the feed flag is set, a fully chained tail compiles to plain draw moves
with no bridge and no feed-rate annotation. -/
theorem genMoves_chained (f : Str) :
    ∀ (rest : List Seg) (p : Seg), chainedFrom p rest = true →
      genMoves f p true rest = List.map drawN rest := by
  intro rest
  induction rest with
  | nil => intro p _; rfl
  | cons s rest ih =>
    intro p h
    simp only [chainedFrom, Bool.and_eq_true, decide_eq_true_eq] at h
    obtain ⟨⟨hx, hy⟩, hc⟩ := h
    simp [genMoves, hx, hy, drawN, ih s hc]

/-- C1 (amended): for a chained drawing file the compiled program is a leading
bridge move exactly when the first segment's start is not the sentinel origin
`(0, 0)`, followed by one draw move per segment — hence `N + 1` move lines when the
first start differs from `(0, 0)` and `N` when it equals it — and the feed-rate
annotation appears exactly once, on the draw move of the first segment. -/
theorem c1_corrected (f : Str) (s : Seg) (rest : List Seg) (h : chainedFrom s rest = true) :
    genMoves f seg0 false (s :: rest) =
      (if s.xs = 0 ∧ s.ys = 0 then [] else [⟨.bridge, round2 s.xs, round2 s.ys, none⟩]) ++
        ⟨.draw, round2 s.xe, round2 s.ye, some f⟩ :: List.map drawN rest ∧
      (genMoves f seg0 false (s :: rest)).countP (fun m => m.feed.isSome) = 1 := by
  have hmap : ∀ l : List Seg, (List.map drawN l).countP (fun m => m.feed.isSome) = 0 := by
    intro l
    rw [List.countP_eq_zero]
    intro m hm
    obtain ⟨t, _, rfl⟩ := List.mem_map.1 hm
    simp [drawN]
  have hshape : genMoves f seg0 false (s :: rest) =
      (if s.xs = 0 ∧ s.ys = 0 then [] else [⟨.bridge, round2 s.xs, round2 s.ys, none⟩]) ++
        ⟨.draw, round2 s.xe, round2 s.ye, some f⟩ :: List.map drawN rest := by
    by_cases hz : s.xs = 0 ∧ s.ys = 0
    · obtain ⟨h1, h2⟩ := hz
      simp [genMoves, seg0, h1, h2, genMoves_chained f rest s h]
    · have hc : s.xs ≠ seg0.xe ∨ s.ys ≠ seg0.ye := by
        simp only [seg0]
        exact not_and_or.1 hz
      simp [genMoves, if_pos hc, genMoves_chained f rest s h, hz]
  refine ⟨hshape, ?_⟩
  rw [hshape, List.countP_append, List.countP_cons, hmap]
  by_cases hz : s.xs = 0 ∧ s.ys = 0 <;> simp [hz]

/-- If the bridge condition holds at every step, each segment contributes a bridge
move and a draw move, so the generator emits twice as many lines as segments. -/
theorem genMoves_length_breaks (f : Str) :
    ∀ (segs : List Seg) (p : Seg) (b : Bool), breaksFrom p segs = true →
      (genMoves f p b segs).length = 2 * segs.length := by
  intro segs
  induction segs with
  | nil => intro p b _; rfl
  | cons s rest ih =>
    intro p b h
    simp only [breaksFrom, Bool.and_eq_true, Bool.or_eq_true, decide_eq_true_eq] at h
    obtain ⟨hcond, hrest⟩ := h
    simp only [genMoves, if_pos hcond, List.length_cons, ih s true hrest, List.length]
    ring

/-- The C2 hypothesis on consecutive pairs equals the step-wise bridge condition
relative to the first segment. -/
theorem consecBreaks_eq_breaksFrom :
    ∀ (rest : List Seg) (s : Seg), consecBreaks (s :: rest) = breaksFrom s rest := by
  intro rest
  induction rest with
  | nil => intro s; rfl
  | cons b r ih =>
    intro s
    simp only [consecBreaks, breaksFrom, ih b]

/-- C2 (amended): for a drawing file in which no segment's start point equals the
preceding segment's end point, the compiled program contains exactly `2N` move
lines (one bridge plus one draw per segment) after the fixed 1-line header when
the first segment does not start at the sentinel origin `(0, 0)`, and exactly
`2N - 1` move lines (the leading bridge suppressed) when it does. -/
theorem c2_corrected (f : Str) (s : Seg) (rest : List Seg)
    (h1 : consecBreaks (s :: rest) = true) :
    (genMoves f seg0 false (s :: rest)).length =
      if s.xs = 0 ∧ s.ys = 0 then 2 * (s :: rest).length - 1
      else 2 * (s :: rest).length := by
  have hbr : breaksFrom s rest = true := by
    rw [← consecBreaks_eq_breaksFrom]
    exact h1
  by_cases hz : s.xs = 0 ∧ s.ys = 0
  · rw [if_pos hz]
    have hcond : ¬(s.xs ≠ seg0.xe ∨ s.ys ≠ seg0.ye) := by
      simp [seg0, hz.1, hz.2]
    simp only [genMoves, if_neg hcond, List.length_cons]
    rw [genMoves_length_breaks f rest s true hbr]
    omega
  · rw [if_neg hz]
    have hcond : s.xs ≠ seg0.xe ∨ s.ys ≠ seg0.ye := by
      simp only [seg0]
      exact not_and_or.1 hz
    simp only [genMoves, if_pos hcond, List.length_cons]
    rw [genMoves_length_breaks f rest s true hbr]
    omega

/-- C2 witness: a single segment starting at the origin compiles to `2N - 1 = 1`
move line, exercising the origin branch of the amended claim. -/
theorem c2_corrected_w :
    (genMoves (cs "600") seg0 false [⟨0, 0, 5, 5⟩]).length =
      if (0 : ℚ) = 0 ∧ (0 : ℚ) = 0 then 2 * 1 - 1 else 2 * 1 :=
  c2_corrected (cs "600") ⟨0, 0, 5, 5⟩ [] (by decide)

/-- C1 witness: a two-segment chained file starting away from the origin compiles
to a bridge plus two draws, with the feed annotation once, on the first draw. -/
theorem c1_corrected_w :
    genMoves (cs "600") seg0 false [⟨1, 1, 2, 2⟩, ⟨2, 2, 3, 3⟩] =
        (if (1 : ℚ) = 0 ∧ (1 : ℚ) = 0 then [] else
          [⟨.bridge, round2 1, round2 1, none⟩]) ++
          ⟨.draw, round2 2, round2 2, some (cs "600")⟩ ::
            List.map drawN [⟨2, 2, 3, 3⟩] ∧
      (genMoves (cs "600") seg0 false [⟨1, 1, 2, 2⟩, ⟨2, 2, 3, 3⟩]).countP
        (fun m => m.feed.isSome) = 1 :=
  c1_corrected (cs "600") ⟨1, 1, 2, 2⟩ [⟨2, 2, 3, 3⟩] (by decide)

/-- C10: the compiled program opens with a bridging move to the first segment's
start point if and only if that start point is not exactly `(0, 0)` — the
consequence of comparing the first parsed segment against the all-zero index-0
sentinel of the coordinate arrays. -/
theorem c10_first_bridge (f : Str) (s : Seg) (rest : List Seg) :
    (genMoves f seg0 false (s :: rest)).head? =
        some ⟨.bridge, round2 s.xs, round2 s.ys, none⟩ ↔ ¬(s.xs = 0 ∧ s.ys = 0) := by
  by_cases hz : s.xs = 0 ∧ s.ys = 0
  · obtain ⟨h1, h2⟩ := hz
    simp [genMoves, seg0, h1, h2]
  · have hc : s.xs ≠ seg0.xe ∨ s.ys ≠ seg0.ye := by
      simp only [seg0]
      exact not_and_or.1 hz
    simp [genMoves, if_pos hc, hz]

/-- C7: the telemetry-drain sub-loop exits exactly when some received record
contains the space motion-stop marker, and the telemetry log grows by exactly one
`(position, receipt-time)` entry per observed record whose locally observed receipt
timestamp differs from the previous observation (an empty `check` meaning no
previous observation exists yet). -/
theorem c7_drain (check : Str) (log : List (Str × Str)) (obs : List Obs) :
    ((drainLoop check log obs).stopped = true ↔ ∃ o ∈ obs, hasStop o.pos = true) ∧
      (drainLoop check log obs).log = log ++ specDrainLog check (consumedObs obs) := by
  induction obs generalizing check log with
  | nil => simp [drainLoop, specDrainLog, consumedObs]
  | cons o rest ih =>
    by_cases hs : hasStop o.pos = true
    · refine ⟨?_, ?_⟩
      · simp only [drainLoop, hs, if_true]
        simp [hs]
      · simp only [drainLoop, consumedObs, specDrainLog, hs, if_true]
        split <;> simp
    · obtain ⟨ih1, ih2⟩ :=
        ih o.now (if check ≠ o.now ∧ check ≠ [] then log ++ [(o.pos, check)] else log)
      refine ⟨?_, ?_⟩
      · simp only [drainLoop, hs, if_false, Bool.false_eq_true]
        rw [ih1]
        simp [hs]
      · simp only [drainLoop, consumedObs, specDrainLog, hs, if_false, Bool.false_eq_true]
        rw [ih2]
        split <;> simp [List.append_assoc]

/-- When the read loop would overrun the arrays, it records the capacity error and
keeps exactly the first `q - 1 - segs.length` further entities. -/
theorem dxfRead_capacity :
    ∀ (q : Nat) (es segs : List Seg) (b : BBox),
      segs.length + 1 < q → q ≤ segs.length + es.length + 1 →
      (dxfRead q es segs b).segs = segs ++ es.take (q - 1 - segs.length) ∧
        (dxfRead q es segs b).err = true := by
  intro q es
  induction es with
  | nil =>
    intro segs b h1 h2
    exfalso
    simp only [List.length_nil] at h2
    omega
  | cons e rest ih =>
    intro segs b h1 h2
    simp only [dxfRead]
    by_cases hcap : q ≤ (segs ++ [e]).length + 1
    · rw [if_pos hcap]
      simp only [List.length_append, List.length_cons, List.length_nil] at hcap
      have hone : q - 1 - segs.length = 1 := by omega
      rw [hone]
      exact ⟨by simp, rfl⟩
    · rw [if_neg hcap]
      simp only [List.length_append, List.length_cons, List.length_nil] at hcap
      have h1' : (segs ++ [e]).length + 1 < q := by
        simp only [List.length_append, List.length_cons, List.length_nil]
        omega
      have h2' : q ≤ (segs ++ [e]).length + rest.length + 1 := by
        simp only [List.length_cons] at h2
        simp only [List.length_append, List.length_cons, List.length_nil]
        omega
      obtain ⟨ha, hb⟩ := ih (segs ++ [e]) (bboxUpdate b e) h1' h2'
      refine ⟨?_, hb⟩
      rw [ha]
      simp only [List.length_append, List.length_cons, List.length_nil]
      have hq : q - 1 - segs.length = (q - 1 - (segs.length + 1)) + 1 := by omega
      rw [hq, List.take_succ_cons, List.append_assoc, List.singleton_append]

/-- C6: a drawing file with one entity more than the 999-segment capacity
(`qty - 1`; index 0 of the `qty = 1000`-element arrays is the sentinel) makes the
compiler record the capacity error, stop parsing before the final entity, and still
emit the program compiled from exactly the 999 segments parsed before the limit was
hit. -/
theorem c6_capacity (f : Str) (entities : List Seg) (h : entities.length = qty) :
    (dxfParse entities).err = true ∧
      (dxfParse entities).segs = entities.take (qty - 1) ∧
      (dxf_to_gcode f entities).moves = genMoves f seg0 false (entities.take (qty - 1)) := by
  have h1 : ([] : List Seg).length + 1 < qty := by simp [qty]
  have h2 : qty ≤ ([] : List Seg).length + entities.length + 1 := by simp [h]
  obtain ⟨ha, hb⟩ := dxfRead_capacity qty entities [] bbox0 h1 h2
  have hsegs : (dxfParse entities).segs = entities.take (qty - 1) := by
    simpa [dxfParse] using ha
  refine ⟨hb, hsegs, ?_⟩
  simp only [dxf_to_gcode]
  rw [hsegs]

/-- C6 witness: a concrete 1000-entity file. -/
theorem c6_capacity_w :
    (dxfParse (List.replicate 1000 seg0)).err = true ∧
      (dxfParse (List.replicate 1000 seg0)).segs = (List.replicate 1000 seg0).take (qty - 1) ∧
      (dxf_to_gcode (cs "600") (List.replicate 1000 seg0)).moves =
        genMoves (cs "600") seg0 false ((List.replicate 1000 seg0).take (qty - 1)) :=
  c6_capacity (cs "600") (List.replicate 1000 seg0)
    (by rw [List.length_replicate]; rfl)

/-- The source's strict-comparison update `if a < b then a else b` is `min b a`. -/
theorem if_lt_min (a b : ℚ) : (if a < b then a else b) = min b a := by
  split
  · next h => rw [min_eq_right h.le]
  · next h => rw [min_eq_left (not_lt.1 h)]

/-- The source's strict-comparison update `if a > b then a else b` is `max b a`. -/
theorem if_gt_max (a b : ℚ) : (if a > b then a else b) = max b a := by
  split
  · next h => rw [max_eq_right h.le]
  · next h => rw [max_eq_left (not_lt.1 h)]

/-- The eight strict-comparison updates of one entity amount to min/max folding of
its four coordinates into the accumulator. -/
theorem bboxUpdate_eq (b : BBox) (s : Seg) :
    bboxUpdate b s =
      ⟨min (min b.xmin s.xs) s.xe, max (max b.xmax s.xs) s.xe,
        min (min b.ymin s.ys) s.ye, max (max b.ymax s.ys) s.ye⟩ := by
  simp only [bboxUpdate, if_lt_min, if_gt_max]

/-- Folding `bboxUpdate` acts independently on the four extent fields. -/
theorem foldl_bboxUpdate_eq :
    ∀ (l : List Seg) (b : BBox),
      l.foldl bboxUpdate b =
        ⟨l.foldl (fun a s => min (min a s.xs) s.xe) b.xmin,
          l.foldl (fun a s => max (max a s.xs) s.xe) b.xmax,
          l.foldl (fun a s => min (min a s.ys) s.ye) b.ymin,
          l.foldl (fun a s => max (max a s.ys) s.ye) b.ymax⟩ := by
  intro l
  induction l with
  | nil => intro b; rfl
  | cons e t ih =>
    intro b
    simp only [List.foldl_cons, bboxUpdate_eq]
    exact ih _

/-- A right-commutative fold lets a seed component be pulled out of the fold. -/
theorem foldl_pull (f : ℚ → ℚ → ℚ) (hrc : ∀ a b c, f (f a b) c = f (f a c) b) :
    ∀ (l : List ℚ) (a b : ℚ), l.foldl f (f a b) = f (l.foldl f a) b := by
  intro l
  induction l with
  | nil => intro a b; rfl
  | cons x t ih =>
    intro a b
    simp only [List.foldl_cons]
    rw [hrc a b x, ih (f a x) b]

/-- Folding two projections of each element interleaved equals folding the mapped
lists one after the other. -/
theorem foldl_pair (f : ℚ → ℚ → ℚ) (hrc : ∀ a b c, f (f a b) c = f (f a c) b)
    (g h : Seg → ℚ) :
    ∀ (l : List Seg) (a : ℚ),
      l.foldl (fun x s => f (f x (g s)) (h s)) a =
        (l.map h).foldl f ((l.map g).foldl f a) := by
  intro l
  induction l with
  | nil => intro a; rfl
  | cons e t ih =>
    intro a
    simp only [List.foldl_cons, List.map_cons]
    rw [ih (f (f a (g e)) (h e)), foldl_pull f hrc (t.map g) (f a (g e)) (h e)]

/-- Right commutativity of `max` on `ℚ`. -/
theorem max_rc (a b c : ℚ) : max (max a b) c = max (max a c) b := by
  rw [max_assoc, max_comm b c, ← max_assoc]

/-- Right commutativity of `min` on `ℚ`. -/
theorem min_rc (a b c : ℚ) : min (min a b) c = min (min a c) b := by
  rw [min_assoc, min_comm b c, ← min_assoc]

/-- The parse-loop bounding box of a segment list is the min/max over the union of
its start and end coordinates together with the initial 0. -/
theorem foldl_bboxUpdate_specBox (l : List Seg) :
    l.foldl bboxUpdate bbox0 = specBox l := by
  rw [foldl_bboxUpdate_eq l bbox0]
  simp only [specBox, ptsX, ptsY, List.foldl_append, bbox0]
  congr 1
  · exact foldl_pair min min_rc Seg.xs Seg.xe l 0
  · exact foldl_pair max max_rc Seg.xs Seg.xe l 0
  · exact foldl_pair min min_rc Seg.ys Seg.ye l 0
  · exact foldl_pair max max_rc Seg.ys Seg.ye l 0

/-- The read loop only ever appends to the stored segments, and its bounding box is
the fold of the appended entities into the incoming accumulator. -/
theorem dxfRead_tail :
    ∀ (q : Nat) (es segs : List Seg) (b : BBox),
      ∃ t, (dxfRead q es segs b).segs = segs ++ t ∧
        (dxfRead q es segs b).box = t.foldl bboxUpdate b := by
  intro q es
  induction es with
  | nil => intro segs b; exact ⟨[], by simp [dxfRead]⟩
  | cons e rest ih =>
    intro segs b
    simp only [dxfRead]
    by_cases hcap : q ≤ (segs ++ [e]).length + 1
    · rw [if_pos hcap]
      exact ⟨[e], rfl, rfl⟩
    · rw [if_neg hcap]
      obtain ⟨t, h1, h2⟩ := ih (segs ++ [e]) (bboxUpdate b e)
      refine ⟨e :: t, ?_, ?_⟩
      · rw [h1, List.append_assoc, List.singleton_append]
      · rw [h2, List.foldl_cons]

/-- Within capacity the read loop consumes every entity. -/
theorem dxfRead_all :
    ∀ (q : Nat) (es segs : List Seg) (b : BBox),
      segs.length + es.length + 1 ≤ q →
      (dxfRead q es segs b).segs = segs ++ es := by
  intro q es
  induction es with
  | nil => intro segs b _; simp [dxfRead]
  | cons e rest ih =>
    intro segs b h
    simp only [List.length_cons] at h
    simp only [dxfRead]
    by_cases hcap : q ≤ (segs ++ [e]).length + 1
    · rw [if_pos hcap]
      simp only [List.length_append, List.length_cons, List.length_nil] at hcap
      have : rest = [] := List.length_eq_zero.1 (by omega)
      subst this
      simp
    · rw [if_neg hcap]
      rw [ih (segs ++ [e]) (bboxUpdate b e)
        (by simp only [List.length_append, List.length_cons, List.length_nil]; omega)]
      rw [List.append_assoc, List.singleton_append]

/-- A right-commutative fold is invariant under permutation of the list. -/
theorem foldl_rc_perm (f : ℚ → ℚ → ℚ) (hrc : ∀ a b c, f (f a b) c = f (f a c) b)
    {l l' : List ℚ} (hp : l.Perm l') : ∀ a, l.foldl f a = l'.foldl f a := by
  induction hp with
  | nil => intro a; rfl
  | cons x _ ih => intro a; simp only [List.foldl_cons]; exact ih (f a x)
  | swap x y t => intro a; simp only [List.foldl_cons]; rw [hrc a y x]
  | trans _ _ ih1 ih2 => intro a; rw [ih1 a, ih2 a]

/-- The min/max extents over the point union are permutation invariant. -/
theorem specBox_perm {l l' : List Seg} (hp : l.Perm l') : specBox l = specBox l' := by
  have hx : (ptsX l).Perm (ptsX l') := (hp.map Seg.xs).append (hp.map Seg.xe)
  have hy : (ptsY l).Perm (ptsY l') := (hp.map Seg.ys).append (hp.map Seg.ye)
  simp only [specBox]
  rw [foldl_rc_perm min min_rc hx 0, foldl_rc_perm max max_rc hx 0,
    foldl_rc_perm min min_rc hy 0, foldl_rc_perm max max_rc hy 0]

/-- For a drawing file exceeding capacity by one, the bounding box is the fold of
the 999 parsed entities alone. -/
theorem dxfParse_box_overflow (es : List Seg) (h : es.length = qty) :
    (dxfParse es).box = List.foldl bboxUpdate bbox0 (es.take (qty - 1)) := by
  obtain ⟨t, ht1, ht2⟩ := dxfRead_tail qty es [] bbox0
  rw [List.nil_append] at ht1
  obtain ⟨hc1, _⟩ := dxfRead_capacity qty es [] bbox0 (by decide)
    (by simp only [List.length_nil, Nat.zero_add, h]; decide)
  simp only [List.nil_append, List.length_nil, Nat.sub_zero] at hc1
  have ht : t = es.take (qty - 1) := ht1.symm.trans hc1
  simp only [dxfParse]
  rw [ht2, ht]

/-- Entities equal to the zero sentinel leave any accumulator they cannot move
unchanged. -/
theorem foldl_bboxUpdate_fixpoint (b : BBox) (hb : bboxUpdate b seg0 = b) :
    ∀ n, List.foldl bboxUpdate b (List.replicate n seg0) = b := by
  intro n
  induction n with
  | zero => rfl
  | succ k ih => rw [List.replicate_succ, List.foldl_cons, hb, ih]

/-- C3 counterexample: (i) for the single segment (1,1)–(2,2) the compiler's `xmin`
stays at its initial value 0, while the minimum over the union of the parsed start
and end x coordinates is 1; (ii) the permutation clause fails beyond capacity:
moving the only nonzero entity of a 1000-entity file from the end (where the
999-segment limit cuts it off) to the front changes the computed bounding box. -/
theorem c3_cex :
    ((dxfParse [⟨1, 1, 2, 2⟩]).box.xmin ≠ minList (ptsX (dxfParse [⟨1, 1, 2, 2⟩]).segs)) ∧
      (List.replicate 999 seg0 ++ [(⟨5, 5, 5, 5⟩ : Seg)]).Perm
        ((⟨5, 5, 5, 5⟩ : Seg) :: List.replicate 999 seg0) ∧
      (dxfParse (List.replicate 999 seg0 ++ [⟨5, 5, 5, 5⟩])).box ≠
        (dxfParse ((⟨5, 5, 5, 5⟩ : Seg) :: List.replicate 999 seg0)).box := by
  refine ⟨by decide, List.perm_append_singleton _ _, ?_⟩
  have lenA : (List.replicate 999 seg0 ++ [(⟨5, 5, 5, 5⟩ : Seg)]).length = qty := by
    rw [List.length_append, List.length_replicate]
    rfl
  have lenB : ((⟨5, 5, 5, 5⟩ : Seg) :: List.replicate 999 seg0).length = qty := by
    rw [List.length_cons, List.length_replicate]
    rfl
  have htA : (List.replicate 999 seg0 ++ [(⟨5, 5, 5, 5⟩ : Seg)]).take 999 =
      List.replicate 999 seg0 := by
    have h := List.take_left (List.replicate 999 seg0) [(⟨5, 5, 5, 5⟩ : Seg)]
    rwa [List.length_replicate] at h
  have htB : ((⟨5, 5, 5, 5⟩ : Seg) :: List.replicate 999 seg0).take 999 =
      (⟨5, 5, 5, 5⟩ : Seg) :: List.replicate 998 seg0 := by
    rw [show ((⟨5, 5, 5, 5⟩ : Seg) :: List.replicate 999 seg0).take 999 =
        (⟨5, 5, 5, 5⟩ : Seg) :: (List.replicate 999 seg0).take 998 from rfl,
      List.take_replicate]
    norm_num
  have hA : (dxfParse (List.replicate 999 seg0 ++ [⟨5, 5, 5, 5⟩])).box = bbox0 := by
    rw [dxfParse_box_overflow _ lenA, show qty - 1 = 999 from rfl, htA]
    exact foldl_bboxUpdate_fixpoint bbox0 (by decide) 999
  have hB : (dxfParse ((⟨5, 5, 5, 5⟩ : Seg) :: List.replicate 999 seg0)).box =
      bboxUpdate bbox0 ⟨5, 5, 5, 5⟩ := by
    rw [dxfParse_box_overflow _ lenB, show qty - 1 = 999 from rfl, htB, List.foldl_cons]
    exact foldl_bboxUpdate_fixpoint (bboxUpdate bbox0 ⟨5, 5, 5, 5⟩) (by decide) 998
  rw [hA, hB]
  decide

/-- C3 (amended): for every drawing file, the bounding box computed by the path
compiler equals the min/max over the union of all parsed segments' start and end
points together with the initial accumulator value 0 (not over the points alone,
as the counterexample shows); and for drawing files within the 999-segment
capacity the result is unchanged under any permutation of the entity order (beyond
capacity a permutation changes which prefix is parsed, as the counterexample
shows). -/
theorem c3_corrected :
    (∀ entities : List Seg, (dxfParse entities).box = specBox (dxfParse entities).segs) ∧
      ∀ entities entities' : List Seg, entities.length < qty → entities.Perm entities' →
        (dxfParse entities).box = (dxfParse entities').box := by
  have part1 : ∀ l : List Seg, (dxfParse l).box = specBox (dxfParse l).segs := by
    intro l
    obtain ⟨t, h1, h2⟩ := dxfRead_tail qty l [] bbox0
    rw [List.nil_append] at h1
    simp only [dxfParse]
    rw [h2, h1]
    exact foldl_bboxUpdate_specBox t
  refine ⟨part1, ?_⟩
  intro entities entities' hlen hperm
  have hlen' : entities'.length < qty := hperm.length_eq ▸ hlen
  have e1 : (dxfParse entities).segs = entities := by
    have := dxfRead_all qty entities [] bbox0
      (by simp only [List.length_nil, Nat.zero_add]; omega)
    simpa [dxfParse] using this
  have e2 : (dxfParse entities').segs = entities' := by
    have := dxfRead_all qty entities' [] bbox0
      (by simp only [List.length_nil, Nat.zero_add]; omega)
    simpa [dxfParse] using this
  rw [part1 entities, part1 entities', e1, e2]
  exact specBox_perm hperm

/-- C3 witness: the min/max-with-0 characterization at a two-entity file, and
permutation invariance at that file and its transposition. -/
theorem c3_corrected_w :
    (dxfParse [(⟨1, 2, 3, 4⟩ : Seg), ⟨5, 6, 7, 8⟩]).box =
        specBox (dxfParse [(⟨1, 2, 3, 4⟩ : Seg), ⟨5, 6, 7, 8⟩]).segs ∧
      (dxfParse [(⟨1, 2, 3, 4⟩ : Seg), ⟨5, 6, 7, 8⟩]).box =
        (dxfParse [(⟨5, 6, 7, 8⟩ : Seg), ⟨1, 2, 3, 4⟩]).box :=
  ⟨c3_corrected.1 [(⟨1, 2, 3, 4⟩ : Seg), ⟨5, 6, 7, 8⟩],
    c3_corrected.2 [(⟨1, 2, 3, 4⟩ : Seg), ⟨5, 6, 7, 8⟩] [⟨5, 6, 7, 8⟩, ⟨1, 2, 3, 4⟩]
      (by decide) (List.Perm.swap (⟨5, 6, 7, 8⟩ : Seg) ⟨1, 2, 3, 4⟩ [])⟩

/-- A list is a prefix (in the executable sense) of itself followed by anything. -/
theorem isPrefixOf_append_self : ∀ (l t : Str), l.isPrefixOf (l ++ t) = true := by
  intro l t
  induction l with
  | nil => simp [List.isPrefixOf]
  | cons c r ih => simp [List.isPrefixOf, ih]

/-- A list occurs as a substring at the head of itself followed by anything. -/
theorem isSub_append_self (n t : Str) : isSub n (n ++ t) = true := by
  cases n with
  | nil =>
    cases t with
    | nil => rfl
    | cons c t' => simp [isSub, List.isPrefixOf]
  | cons c r =>
    simp only [List.cons_append, isSub, Bool.or_eq_true]
    left
    exact isPrefixOf_append_self (c :: r) t

/-- When an input matches none of the hard-coded patterns, `__gcode__` returns it
verbatim and logs nothing. -/
theorem gcodeDispatch_passthrough (canOpen : Str → Bool) (now : Str) (fr rc g : Str)
    (h : passesThrough g = true) :
    gcodeDispatch canOpen now g fr rc = (g, []) := by
  simp only [passesThrough, Bool.and_eq_true, Bool.not_eq_true', decide_eq_false_iff_not] at h
  obtain ⟨⟨⟨⟨⟨h1, h2⟩, h3⟩, h4⟩, h5⟩, h6⟩ := h
  simp [gcodeDispatch, h1, h2, h3, h4, h5, h6]

/-- C5 (amended): a `delta` directive stores `'G91 G0 ' + input[6:]` as the repeat
command, but is not silent — the raw directive text is passed to `__gcode__` and
(matching no dispatch pattern) sent verbatim to the peer that same cycle; a later
empty input with a repeat command stored sends the stored command (verbatim, when
it matches no dispatch pattern) and leaves it unchanged. -/
theorem c5_corrected (canOpen : Str → Bool) (now : Str) (errlog : List ErrEntry)
    (st : Session) (g r : Str)
    (hg : strIn (cs "delta") (toLowerL g) = true)
    (hpg : passesThrough g = true)
    (hr : st.repeatCmd = some r)
    (hpr : passesThrough r = true) :
    ((commandCycle canOpen now errlog st g).st.repeatCmd =
        some (cs "G91 G0 " ++ dropL 6 g) ∧
      (commandCycle canOpen now errlog st g).sent = g) ∧
      ((commandCycle canOpen now errlog st []).sent = r ∧
        (commandCycle canOpen now errlog st []).st.repeatCmd = some r) := by
  constructor
  · have hd := gcodeDispatch_passthrough canOpen now st.feedrate st.record g hpg
    simp [commandCycle, localStep, hg, hd]
  · have hd0 : strIn (cs "delta") (toLowerL ([] : Str)) = false := by decide
    have hd := gcodeDispatch_passthrough canOpen now st.feedrate st.record r hpr
    simp [commandCycle, localStep, hd0, hr, hd]

/-- C5 witness: `'delta X10'` then an empty input. -/
theorem c5_corrected_w :
    ((commandCycle (fun _ => true) (cs "T") []
          ⟨cs "600", some (cs "G91 G0 X10"), []⟩ (cs "delta X10")).st.repeatCmd =
        some (cs "G91 G0 " ++ dropL 6 (cs "delta X10")) ∧
      (commandCycle (fun _ => true) (cs "T") []
          ⟨cs "600", some (cs "G91 G0 X10"), []⟩ (cs "delta X10")).sent = cs "delta X10") ∧
      ((commandCycle (fun _ => true) (cs "T") []
          ⟨cs "600", some (cs "G91 G0 X10"), []⟩ []).sent = cs "G91 G0 X10" ∧
        (commandCycle (fun _ => true) (cs "T") []
          ⟨cs "600", some (cs "G91 G0 X10"), []⟩ []).st.repeatCmd = some (cs "G91 G0 X10")) :=
  c5_corrected (fun _ => true) (cs "T") [] ⟨cs "600", some (cs "G91 G0 X10"), []⟩
    (cs "delta X10") (cs "G91 G0 X10") (by decide) (by decide) rfl (by decide)

/-- Case folding distributes over the `'save '` prefix of a save directive. -/
theorem toLowerL_save (arg : Str) :
    toLowerL (cs "save " ++ arg) = cs "save " ++ toLowerL arg := by
  simp only [toLowerL, List.map_append]
  congr 1

/-- C8 (amended): a `save` directive appends `'.txt'` to its argument exactly when
the argument does not contain `'.txt'` as a substring (not: does not end in it, as
the counterexample shows); `'save report.txt'` writes to `'report.txt'` unchanged;
and the written content is the stored telemetry log, which the save leaves
unmodified. -/
theorem c8_corrected (st : Session) (arg : Str)
    (hdelta : strIn (cs "delta") (toLowerL (cs "save " ++ arg)) = false) :
    (strIn (cs ".txt") arg = false →
        (localStep st (cs "save " ++ arg)).write = some (arg ++ cs ".txt", st.record) ∧
          (localStep st (cs "save " ++ arg)).gcode = arg ++ cs ".txt") ∧
      (arg = cs "report.txt" →
        (localStep st (cs "save " ++ arg)).write = some (cs "report.txt", st.record)) ∧
      (localStep st (cs "save " ++ arg)).st = st := by
  have hne : (cs "save " ++ arg) ≠ [] := by
    intro hcon
    have hl := congrArg List.length hcon
    rw [List.length_append, show (cs "save ").length = 5 from rfl] at hl
    simp at hl
  have hsave : strIn (cs "save") (toLowerL (cs "save " ++ arg)) = true := by
    rw [toLowerL_save]
    exact isSub_append_self (cs "save") (' ' :: toLowerL arg)
  have hdrop : dropL 5 (cs "save " ++ arg) = arg := rfl
  have hls : localStep st (cs "save " ++ arg) =
      ⟨st, if strIn (cs ".txt") arg = true then arg else arg ++ cs ".txt",
        some (if strIn (cs ".txt") arg = true then arg else arg ++ cs ".txt", st.record)⟩ := by
    simp [localStep, hdelta, hne, hsave, hdrop]
  refine ⟨?_, ?_, ?_⟩
  · intro htxt
    rw [hls]
    simp [htxt]
  · intro harg
    rw [hls]
    subst harg
    simp [show strIn (cs ".txt") (cs "report.txt") = true from by decide]
  · rw [hls]

/-- C8 witness: `'save report.txt'` writes the log to `'report.txt'` unchanged. -/
theorem c8_corrected_w :
    (localStep ⟨cs "600", none, cs "LOG"⟩ (cs "save " ++ cs "report.txt")).write =
      some (cs "report.txt", cs "LOG") :=
  (c8_corrected ⟨cs "600", none, cs "LOG"⟩ (cs "report.txt") (by decide)).2.1 rfl

/-- Case folding distributes over the `'scandxf '` prefix of a scandxf directive. -/
theorem toLowerL_scandxf (path : Str) :
    toLowerL (cs "scandxf " ++ path) = cs "scandxf " ++ toLowerL path := by
  simp only [toLowerL, List.map_append]
  congr 1

/-- C9: a `scandxf` directive naming a file that cannot be opened makes the cycle
log a timestamped entry to the persistent error record and send the harmless no-op
motion command `'G0'` to the peer, leaving the session loop to continue. -/
theorem c9_scandxf_error (canOpen : Str → Bool) (now : Str) (errlog : List ErrEntry)
    (st : Session) (path : Str)
    (hpx : strIn (cs "pulse x") (toLowerL (cs "scandxf " ++ path)) = false)
    (hpy : strIn (cs "pulse y") (toLowerL (cs "scandxf " ++ path)) = false)
    (hdelta : strIn (cs "delta") (toLowerL (cs "scandxf " ++ path)) = false)
    (hsave : strIn (cs "save") (toLowerL (cs "scandxf " ++ path)) = false)
    (hfeed : strIn (cs "feedrate") (toLowerL (cs "scandxf " ++ path)) = false)
    (hopen : canOpen path = false) :
    (commandCycle canOpen now errlog st (cs "scandxf " ++ path)).sent = cs "G0" ∧
      (commandCycle canOpen now errlog st (cs "scandxf " ++ path)).errlog =
        errlog ++ [⟨now, path⟩] := by
  have hne : (cs "scandxf " ++ path) ≠ [] := by
    intro hcon
    have hl := congrArg List.length hcon
    rw [List.length_append, show (cs "scandxf ").length = 8 from rfl] at hl
    simp at hl
  have hclear : (cs "scandxf " ++ path) ≠ cs "clear" := by
    intro hcon
    have hl := congrArg List.length hcon
    rw [List.length_append, show (cs "scandxf ").length = 8 from rfl,
      show (cs "clear").length = 5 from rfl] at hl
    omega
  have hhome : ¬(toLowerL (cs "scandxf " ++ path) = cs "home") := by
    intro hcon
    have hl := congrArg List.length hcon
    rw [toLowerL_scandxf, List.length_append, show (cs "scandxf ").length = 8 from rfl,
      show (cs "home").length = 4 from rfl] at hl
    omega
  have habs : ¬(toLowerL (cs "scandxf " ++ path) = cs "absolute") := by
    intro hcon
    have hl := congrArg List.length hcon
    rw [toLowerL_scandxf, List.length_append, show (cs "scandxf ").length = 8 from rfl,
      show (cs "absolute").length = 8 from rfl] at hl
    have hp0 : path = [] := by
      have : (toLowerL path).length = 0 := by omega
      simpa [toLowerL] using this
    subst hp0
    rw [List.append_nil] at hcon
    exact absurd hcon (by decide)
  have hscan : strIn (cs "scandxf") (toLowerL (cs "scandxf " ++ path)) = true := by
    rw [toLowerL_scandxf]
    exact isSub_append_self (cs "scandxf") (' ' :: toLowerL path)
  have hdrop : dropL 8 (cs "scandxf " ++ path) = path := rfl
  have hls : localStep st (cs "scandxf " ++ path) = ⟨st, cs "scandxf " ++ path, none⟩ := by
    simp [localStep, hdelta, hne, hsave, hclear, hfeed]
  have hdisp : gcodeDispatch canOpen now (cs "scandxf " ++ path) st.feedrate st.record =
      (cs "G0", [⟨now, path⟩]) := by
    simp [gcodeDispatch, hhome, habs, hpx, hpy, hscan, hdrop, hopen]
  simp [commandCycle, hls, hdisp]

/-- C9 witness: `'scandxf missing.dxf'` with an unopenable file. -/
theorem c9_scandxf_error_w :
    (commandCycle (fun _ => false) (cs "T") [] ⟨cs "600", none, []⟩
        (cs "scandxf " ++ cs "missing.dxf")).sent = cs "G0" ∧
      (commandCycle (fun _ => false) (cs "T") [] ⟨cs "600", none, []⟩
          (cs "scandxf " ++ cs "missing.dxf")).errlog =
        [] ++ [⟨cs "T", cs "missing.dxf"⟩] :=
  c9_scandxf_error (fun _ => false) (cs "T") [] ⟨cs "600", none, []⟩ (cs "missing.dxf")
    (by decide) (by decide) (by decide) (by decide) (by decide) rfl

end XYTable
